import Mathlib

/-!
Verification of the `ctx` process-execution and streaming-ingestion engine.

The definitions below are a shallow embedding of the Go source:
* `internal/executor` — `ExecuteCommand` / `ExecuteCommandStreaming` /
  `streamPipe` / `splitCommand` (result assembly, limit enforcement,
  line scanning, argv splitting);
* `internal/tokenizer/cache.go` — `TokenizerCache` (`GetOrCreate`,
  `Size`, `Has`).

Go `int64` counters and limits are modelled as `Int` (no overflow is
reachable in the properties below), byte strings as `List Char`, and the
Go `map[string]Tokenizer` as an association list that is only ever
extended at a key that is not yet present.
-/

namespace Ctx

/-! ## Streaming limits and errors (executor.go) -/

/-- The three sentinel limit errors `ErrLineLimitExceeded`,
`ErrOutputLimitExceeded`, `ErrTokenLimitExceeded`. -/
inductive LimitErr where
  | lineLimitExceeded
  | outputLimitExceeded
  | tokenLimitExceeded
deriving DecidableEq

/-- Model of `tokenizer.Tokenizer.CountTokens` as seen by `streamPipe`:
`some n` is a successful count, `none` models a returned error. -/
def TokenCounter : Type := List Char → Option Nat

/-- Go `len(line)`: the UTF-8 byte length of the scanned line. -/
def utf8Len (line : List Char) : Int := ((line.map Char.utf8Size).sum : Nat)

/-- The observable state of one `streamPipe` consumer: the three shared
counters (`totalBytes`, `totalLines`, `totalTokens`), the per-stream
buffer `buf`, and the list of lines delivered to the callback `cb`, in
order. -/
structure PipeState where
  byteCount : Int
  lineCount : Int
  tokenCount : Int
  buf : List Char
  cbLines : List (List Char)
deriving DecidableEq

/-- Counters and buffers at the start of `ExecuteCommandStreaming`. -/
def initPipeState : PipeState := ⟨0, 0, 0, [], []⟩

/-- One iteration of the `scanner.Scan()` loop body in `streamPipe`:
line-limit check, byte-limit check (`+1` for the newline), best-effort
token count and token-limit check, then buffer append and callback. -/
def streamStep (tok : Option TokenCounter) (maxBytes maxLines maxTokens : Int)
    (st : PipeState) (line : List Char) : PipeState × Option LimitErr :=
  let newLineCount := if maxLines > 0 then st.lineCount + 1 else st.lineCount
  if maxLines > 0 ∧ newLineCount > maxLines then
    ({ st with lineCount := newLineCount }, some .lineLimitExceeded)
  else
    let newByteCount := st.byteCount + (utf8Len line + 1)
    if maxBytes > 0 ∧ newByteCount > maxBytes then
      ({ st with lineCount := newLineCount, byteCount := newByteCount },
       some .outputLimitExceeded)
    else
      let tokRes : Int × Bool :=
        match tok with
        | some t =>
          if maxTokens > 0 then
            match t line with
            | some count =>
              (st.tokenCount + (count : Int),
               decide (st.tokenCount + (count : Int) > maxTokens))
            | none => (st.tokenCount, false)
          else (st.tokenCount, false)
        | none => (st.tokenCount, false)
      if tokRes.2 then
        ({ st with lineCount := newLineCount, byteCount := newByteCount,
                   tokenCount := tokRes.1 }, some .tokenLimitExceeded)
      else
        ({ st with lineCount := newLineCount, byteCount := newByteCount,
                   tokenCount := tokRes.1,
                   buf := st.buf ++ line ++ ['\n'],
                   cbLines := st.cbLines ++ [line] }, none)

/-- The `streamPipe` scan loop over the scanned lines of one stream:
stops at the first limit error, returning the state at that point. -/
def streamPipe (tok : Option TokenCounter) (maxBytes maxLines maxTokens : Int) :
    PipeState → List (List Char) → PipeState × Option LimitErr
  | st, [] => (st, none)
  | st, line :: rest =>
    match streamStep tok maxBytes maxLines maxTokens st line with
    | (st', none) => streamPipe tok maxBytes maxLines maxTokens st' rest
    | (st', some e) => (st', some e)

/-! ## Line scanning (bufio.Scanner with bufio.ScanLines) -/

/-- `bufio.dropCR`: drops one terminal carriage return. -/
def dropCR (l : List Char) : List Char :=
  if l.getLast? = some '\r' then l.dropLast else l

/-- Model of `bufio.Scanner` with the default `bufio.ScanLines` split
function: tokens are newline-terminated lines with the newline (and a
preceding carriage return) stripped; at EOF a non-empty remainder is
returned as a final token even though it has no trailing newline.
`acc` holds the characters of the current line, reversed. -/
def scanLinesAux : List Char → List Char → List (List Char)
  | [], acc => if acc.isEmpty then [] else [dropCR acc.reverse]
  | c :: rest, acc =>
    if c = '\n' then dropCR acc.reverse :: scanLinesAux rest []
    else scanLinesAux rest (c :: acc)

/-- The sequence of lines `scanner.Scan()` yields on a raw stream. -/
def scanLines (raw : List Char) : List (List Char) := scanLinesAux raw []

/-- The characters of `raw` after its last newline: the truncated final
line when `raw` does not end in a newline. -/
def lastSegment (raw : List Char) : List Char :=
  (raw.reverse.takeWhile (fun c => c ≠ '\n')).reverse

/-! ## Result assembly (ExecuteCommand / ExecuteCommandStreaming) -/

/-- The combined-output assembly shared by `ExecuteCommand` and
`ExecuteCommandStreaming`: stdout, then — when stderr is non-empty — a
newline separator (only when stdout is non-empty too) and stderr. -/
def combineOutput (stdout stderr : List Char) : List Char :=
  if stderr.isEmpty then stdout
  else if stdout.isEmpty then stderr
  else stdout ++ '\n' :: stderr

/-- What `cmd.Wait()` returns, as the exit-code mapping distinguishes it:
no error, a `*exec.ExitError` carrying `ExitError.ExitCode()`, or any
other (transport-level) error. -/
inductive WaitErr where
  | noError
  | exitError (exitCode : Int)
  | otherError
deriving DecidableEq

/-- How the OS reaped the process. -/
inductive ProcOutcome where
  | exited (code : Int)
  | signaled
  | waitFailed
deriving DecidableEq

/-- Modelled from Go os/exec semantics: `cmd.Wait()` returns nil on a
zero exit; a non-zero exit or a signal-killed process yields a
`*exec.ExitError`, whose `ExitCode()` is the exit code, or `-1` when the
process was terminated by a signal; any other failure (e.g. an I/O copy
error) is a non-`ExitError` error. -/
def waitErrOf : ProcOutcome → WaitErr
  | .exited code => if code = 0 then .noError else .exitError code
  | .signaled => .exitError (-1)
  | .waitFailed => .otherError

/-- The exit-code determination in `ExecuteCommand` and
`ExecuteCommandStreaming`: `0` on success, `ExitCode()` for an
`*exec.ExitError`, and the fixed failure code `1` otherwise. -/
def determineExitCode : WaitErr → Int
  | .noError => 0
  | .exitError code => code
  | .otherError => 1

/-- The fields of `ExecutionResult` the claims are about. -/
structure ExecResult where
  output : List Char
  exitCode : Int
deriving DecidableEq

/-- `ExecuteCommand`'s result assembly, given the captured stdout and
stderr buffers and the outcome of `cmd.Wait()`. -/
def executeCommandResult (stdout stderr : List Char) (w : WaitErr) : ExecResult :=
  { output := combineOutput stdout stderr, exitCode := determineExitCode w }

/-- The observable outcome of `ExecuteCommandStreaming` for the claims:
the combined output of the result, the callback invocations, and the
limit error returned alongside the result. -/
structure StreamingRun where
  output : List Char
  cbLines : List (List Char)
  limitErr : Option LimitErr
deriving DecidableEq

/-- `ExecuteCommandStreaming` restricted to an invocation where only one
stream (stdout) produces output `raw` and stderr stays empty: the stdout
consumer scans `raw`, the stderr consumer contributes no lines and no
error, so the returned limit error is the one from the stdout consumer. -/
def executeStreamingSingle (tok : Option TokenCounter)
    (maxBytes maxLines maxTokens : Int) (raw : List Char) : StreamingRun :=
  let r := streamPipe tok maxBytes maxLines maxTokens initPipeState (scanLines raw)
  { output := combineOutput r.1.buf [], cbLines := r.1.cbLines, limitErr := r.2 }

/-! ## Argv splitting (splitCommand) -/

/-- The loop state of `splitCommand`: completed parts, the current
accumulating argument, the open quote character (`0` in Go, `none`
here), and the pending-escape flag. -/
structure SplitState where
  parts : List (List Char)
  current : List Char
  inQuote : Option Char
  escaped : Bool

/-- The body of the character loop in `splitCommand`. -/
def splitStep (st : SplitState) (c : Char) : SplitState :=
  if st.escaped then { st with current := st.current ++ [c], escaped := false }
  else if c = '\\' then { st with escaped := true }
  else
    match st.inQuote with
    | some q =>
      if c = q then { st with inQuote := none }
      else { st with current := st.current ++ [c] }
    | none =>
      if c = '"' ∨ c = '\'' then { st with inQuote := some c }
      else if c = ' ' ∨ c = '\t' then
        if st.current.isEmpty then st
        else { st with parts := st.parts ++ [st.current], current := [] }
      else { st with current := st.current ++ [c] }

/-- `splitCommand`: minimal argv tokenizer honouring quoting and
backslash escaping; a non-empty trailing argument is flushed at EOF. -/
def splitCommand (command : List Char) : List (List Char) :=
  let st := command.foldl splitStep ⟨[], [], none, false⟩
  if st.current.isEmpty then st.parts else st.parts ++ [st.current]

/-! ## Tokenizer cache (internal/tokenizer/cache.go) -/

/-- The state of a `TokenizerCache`, generic in the tokenizer type `T`:
the `map[string]Tokenizer` as an association list (keys are inserted
only when absent, so keys are distinct and the list length is the map
size), plus `calls`, an instrumentation log of every invocation of
`factory.CreateTokenizer`, used to state "the factory is not invoked
again". -/
structure CacheState (T : Type) where
  cache : List (String × T)
  calls : List String
deriving DecidableEq

/-- A fresh cache, as built by `NewTokenizerCache`. -/
def emptyCache (T : Type) : CacheState T := ⟨[], []⟩

/-- Lookup in the association list modelling the Go map. -/
def lookupTok {T : Type} : List (String × T) → String → Option T
  | [], _ => none
  | (k, v) :: rest, m => if k = m then some v else lookupTok rest m

/-- `TokenizerCache.GetOrCreate`, sequentialised: the empty-name guard,
the read-locked lookup (the write-locked double-check collapses onto it
in a sequential model), factory construction on a miss, and insertion
only on construction success. The factory is a parameter standing for
the `factory` field. -/
def GetOrCreate {T : Type} (factory : String → Except String T)
    (st : CacheState T) (modelName : String) : Except String T × CacheState T :=
  if modelName = "" then (.error "model name cannot be empty", st)
  else
    match lookupTok st.cache modelName with
    | some tok => (.ok tok, st)
    | none =>
      match factory modelName with
      | .error e =>
        (.error ("failed to create tokenizer for model " ++ modelName ++ ": " ++ e),
         { st with calls := st.calls ++ [modelName] })
      | .ok tok =>
        (.ok tok,
         { cache := st.cache ++ [(modelName, tok)], calls := st.calls ++ [modelName] })

/-- `TokenizerCache.Size`: the number of cached tokenizers. -/
def Size {T : Type} (st : CacheState T) : Nat := st.cache.length

/-- `TokenizerCache.Has`. -/
def Has {T : Type} (st : CacheState T) (modelName : String) : Bool :=
  (lookupTok st.cache modelName).isSome

/-- A sequence of `GetOrCreate` calls, one per listed model name. -/
def runCalls {T : Type} (factory : String → Except String T) :
    CacheState T → List String → CacheState T
  | st, [] => st
  | st, m :: ms => runCalls factory (GetOrCreate factory st m).2 ms

/-- A concrete factory used by the witnesses: succeeds with the length
of the model name, except on the one name it rejects. -/
def natFactory : String → Except String Nat := fun m =>
  if m = "bad" then .error "boom" else .ok m.length

/-! # Theorems -/

/-! ## C8 — combined output of ExecuteCommand -/

/-- C8 counterexample: with stdout `"a"` and stderr `"b"`, the combined
output is `"a\n b"` minus the blank, not the plain concatenation `"ab"`
the claim states: `ExecuteCommand` inserts a newline separator. -/
theorem c8_counterexample :
    (executeCommandResult ['a'] ['b'] .noError).output ≠ ['a'] ++ ['b'] := by
  decide

/-- C8 amended: in non-streaming execution the combined output is the
captured stdout buffer, then a single newline separator exactly when
both buffers are non-empty, then the captured stderr buffer (stdout
first, then stderr); it is the plain concatenation whenever either
buffer is empty. -/
theorem c8_amended (stdout stderr : List Char) (w : WaitErr) :
    (executeCommandResult stdout stderr w).output =
      stdout ++ (if stdout.isEmpty ∨ stderr.isEmpty then [] else ['\n']) ++ stderr := by
  simp only [executeCommandResult, combineOutput]
  by_cases he : stderr.isEmpty <;> by_cases ho : stdout.isEmpty <;>
    simp_all [List.isEmpty_iff]

/-! ## C3 — exit-code mapping -/

/-- C3 counterexample: a process killed by a signal yields a
`*exec.ExitError` whose `ExitCode()` is `-1`, so the result reports
`-1`, not the fixed failure code `1` the claim states. -/
theorem c3_counterexample :
    (executeCommandResult [] [] (waitErrOf .signaled)).exitCode = -1 ∧
    (executeCommandResult [] [] (waitErrOf .signaled)).exitCode ≠ 1 := by
  decide

/-- C3 amended: a process that exits normally reports its own exit code;
a process killed by a signal reports `-1` (the `ExitCode()` sentinel of
`*exec.ExitError` for signal termination); only a wait failure that is
not an `*exec.ExitError` reports the fixed failure code `1`. In no case
is a transport-level error propagated in place of a result. -/
theorem c3_amended (stdout stderr : List Char) (o : ProcOutcome) :
    (executeCommandResult stdout stderr (waitErrOf o)).exitCode =
      match o with
      | .exited code => code
      | .signaled => -1
      | .waitFailed => 1 := by
  cases o with
  | exited code =>
    by_cases h : code = 0 <;>
      simp [executeCommandResult, waitErrOf, determineExitCode, h]
  | signaled => rfl
  | waitFailed => rfl

/-! ## C9 — GetOrCreate on the empty model name -/

/-- C9 confirmed: `GetOrCreate` on the empty model name always returns
the empty-name error, does not invoke the factory (the call log is
unchanged), does not mutate the cache, and leaves every `Size` and `Has`
answer unchanged. -/
theorem c9_empty_model_name {T : Type} (factory : String → Except String T)
    (st : CacheState T) :
    GetOrCreate factory st "" = (.error "model name cannot be empty", st) ∧
    Size (GetOrCreate factory st "").2 = Size st ∧
    (∀ m, Has (GetOrCreate factory st "").2 m = Has st m) ∧
    (GetOrCreate factory st "").2.calls = st.calls := by
  have h : GetOrCreate factory st "" = (.error "model name cannot be empty", st) := rfl
  exact ⟨h, by rw [h], fun m => by rw [h], by rw [h]⟩

/-! ## C10 — splitCommand never yields an empty argument -/

/-- After one `splitStep`, the completed parts are either unchanged or
extended by the current argument, and a part is flushed only when the
current argument is non-empty. -/
lemma splitStep_parts (st : SplitState) (c : Char) :
    (splitStep st c).parts = st.parts ∨
      ((splitStep st c).parts = st.parts ++ [st.current] ∧ ¬st.current.isEmpty) := by
  unfold splitStep
  by_cases h1 : st.escaped
  · simp [h1]
  · by_cases h2 : c = '\\'
    · simp [h1, h2]
    · cases hq : st.inQuote with
      | some q =>
        by_cases hc : c = q
        · subst hc; simp [h1, h2, hq]
        · simp [h1, h2, hq, hc]
      | none =>
        by_cases hc1 : c = '"' ∨ c = '\''
        · simp [h1, h2, hq, hc1]
        · by_cases hc2 : c = ' ' ∨ c = '\t'
          · by_cases hcur : st.current.isEmpty <;>
              simp [h1, h2, hq, hc1, hc2, hcur]
          · simp [h1, h2, hq, hc1, hc2]

/-- One `splitStep` preserves the invariant that every completed part is
non-empty. -/
lemma splitStep_no_empty (st : SplitState) (c : Char)
    (h : ∀ p ∈ st.parts, p ≠ []) : ∀ p ∈ (splitStep st c).parts, p ≠ [] := by
  rcases splitStep_parts st c with heq | ⟨heq, hcur⟩
  · rw [heq]; exact h
  · rw [heq]
    intro p hp
    rcases List.mem_append.mp hp with hp | hp
    · exact h p hp
    · rcases List.mem_singleton.mp hp with rfl
      exact fun hnil => hcur (by simp [hnil])

/-- The fold in `splitCommand` preserves the non-empty-parts invariant. -/
lemma foldl_splitStep_no_empty (command : List Char) :
    ∀ st : SplitState, (∀ p ∈ st.parts, p ≠ []) →
      ∀ p ∈ (command.foldl splitStep st).parts, p ≠ [] := by
  induction command with
  | nil => intro st h; exact h
  | cons c rest ih =>
    intro st h
    exact ih (splitStep st c) (splitStep_no_empty st c h)

/-- C10 confirmed: every element of the argv list `splitCommand`
returns is a non-empty string; in particular a quoted empty string in
the command text contributes no argv element. -/
theorem c10_split_no_empty (command : List Char) :
    ∀ p ∈ splitCommand command, p ≠ [] := by
  unfold splitCommand
  have h := foldl_splitStep_no_empty command ⟨[], [], none, false⟩ (by simp)
  by_cases hcur : (command.foldl splitStep ⟨[], [], none, false⟩).current.isEmpty
  · simpa [hcur] using h
  · simp only [hcur, if_false, ite_false]
    intro p hp
    rcases List.mem_append.mp hp with hp | hp
    · exact h p hp
    · rcases List.mem_singleton.mp hp with rfl
      exact fun hnil => hcur (by simp [hnil])

/-- C10 witness: on the command text `cmd ""` the splitter returns the
single non-empty argument `cmd`; the quoted empty string is dropped. -/
theorem c10_split_no_empty_witness : ['c', 'm', 'd'] ≠ ([] : List Char) :=
  c10_split_no_empty ("cmd \"\"".toList) ['c', 'm', 'd'] (by decide)

/-! ## Cache lemmas shared by C2 and C7 -/

/-- Appending entries does not disturb a key that is absent from the
front part of the association list. -/
lemma lookupTok_append_none {T : Type} (l1 l2 : List (String × T)) (m : String)
    (h : lookupTok l1 m = none) : lookupTok (l1 ++ l2) m = lookupTok l2 m := by
  induction l1 with
  | nil => rfl
  | cons kv rest ih =>
    obtain ⟨k, v⟩ := kv
    by_cases hk : k = m
    · simp [lookupTok, hk] at h
    · simp only [List.cons_append, lookupTok, hk, if_false] at h ⊢
      exact ih h

/-- A key found in the front part of the association list is unaffected
by appended entries. -/
lemma lookupTok_append_some {T : Type} (l1 l2 : List (String × T)) (m : String)
    (t : T) (h : lookupTok l1 m = some t) : lookupTok (l1 ++ l2) m = some t := by
  induction l1 with
  | nil => simp [lookupTok] at h
  | cons kv rest ih =>
    obtain ⟨k, v⟩ := kv
    by_cases hk : k = m
    · simp only [lookupTok, hk, if_true] at h ⊢
      simpa using h
    · simp only [List.cons_append, lookupTok, hk, if_false] at h ⊢
      exact ih h

/-- `GetOrCreate` on a cached model name: cache hit, state unchanged. -/
lemma getOrCreate_hit {T : Type} (factory : String → Except String T)
    (st : CacheState T) (m : String) (t : T) (hm : m ≠ "")
    (h : lookupTok st.cache m = some t) :
    GetOrCreate factory st m = (.ok t, st) := by
  simp [GetOrCreate, hm, h]

/-- `GetOrCreate` on a miss with a succeeding factory: the constructed
tokenizer is returned and stored, and the factory is invoked once. -/
lemma getOrCreate_miss_ok {T : Type} (factory : String → Except String T)
    (st : CacheState T) (m : String) (t : T) (hm : m ≠ "")
    (hmiss : lookupTok st.cache m = none) (hf : factory m = .ok t) :
    GetOrCreate factory st m =
      (.ok t, { cache := st.cache ++ [(m, t)], calls := st.calls ++ [m] }) := by
  simp [GetOrCreate, hm, hmiss, hf]

/-- `GetOrCreate` on a miss with a failing factory: the wrapped error is
returned, the cache is not mutated, and the factory was invoked once. -/
lemma getOrCreate_miss_err {T : Type} (factory : String → Except String T)
    (st : CacheState T) (m : String) (e : String) (hm : m ≠ "")
    (hmiss : lookupTok st.cache m = none) (hf : factory m = .error e) :
    GetOrCreate factory st m =
      (.error ("failed to create tokenizer for model " ++ m ++ ": " ++ e),
       { st with calls := st.calls ++ [m] }) := by
  simp [GetOrCreate, hm, hmiss, hf]

/-- Running `GetOrCreate` once per name over distinct, non-empty, fresh
names with a succeeding factory: the factory is invoked exactly once per
name, the cache grows by one entry per name, each name maps to the
result the factory produced for it, and other names are untouched. -/
lemma runCalls_fresh {T : Type} (factory : String → Except String T) :
    ∀ (names : List String) (st : CacheState T), names.Nodup →
      (∀ m ∈ names, m ≠ "") →
      (∀ m ∈ names, lookupTok st.cache m = none) →
      (∀ m ∈ names, ∃ t, factory m = .ok t) →
      (runCalls factory st names).calls = st.calls ++ names ∧
      (runCalls factory st names).cache.length = st.cache.length + names.length ∧
      (∀ m t, m ∈ names → factory m = .ok t →
        lookupTok (runCalls factory st names).cache m = some t) ∧
      (∀ m, m ∉ names →
        lookupTok (runCalls factory st names).cache m = lookupTok st.cache m) := by
  intro names
  induction names with
  | nil =>
    intro st _ _ _ _
    exact ⟨by simp [runCalls], by simp [runCalls], by simp, fun m _ => by simp [runCalls]⟩
  | cons m ms ih =>
    intro st hnd hne hmiss hok
    obtain ⟨t, ht⟩ := hok m (by simp)
    have hm : m ≠ "" := hne m (by simp)
    have hmm : lookupTok st.cache m = none := hmiss m (by simp)
    have hstep := getOrCreate_miss_ok factory st m t hm hmm ht
    have hrun : runCalls factory st (m :: ms) =
        runCalls factory ⟨st.cache ++ [(m, t)], st.calls ++ [m]⟩ ms := by
      simp [runCalls, hstep]
    have hm_notin : m ∉ ms := (List.nodup_cons.mp hnd).1
    have hmiss' : ∀ x ∈ ms,
        lookupTok (⟨st.cache ++ [(m, t)], st.calls ++ [m]⟩ : CacheState T).cache x = none := by
      intro x hx
      have hx0 : lookupTok st.cache x = none := hmiss x (by simp [hx])
      have hxm : m ≠ x := fun he => hm_notin (he ▸ hx)
      rw [show (⟨st.cache ++ [(m, t)], st.calls ++ [m]⟩ : CacheState T).cache
            = st.cache ++ [(m, t)] from rfl,
          lookupTok_append_none _ _ _ hx0]
      simp [lookupTok, hxm]
    obtain ⟨ih1, ih2, ih3, ih4⟩ := ih ⟨st.cache ++ [(m, t)], st.calls ++ [m]⟩
      (List.nodup_cons.mp hnd).2 (fun x hx => hne x (by simp [hx])) hmiss'
      (fun x hx => hok x (by simp [hx]))
    refine ⟨?_, ?_, ?_, ?_⟩
    · rw [hrun, ih1]; simp
    · rw [hrun, ih2]; simp; omega
    · intro x u hx hu
      rw [hrun]
      rcases List.mem_cons.mp hx with rfl | hx'
      · have hu2 : u = t := by rw [ht] at hu; injection hu with h; exact h.symm
        subst hu2
        rw [ih4 x hm_notin,
            show (⟨st.cache ++ [(x, u)], st.calls ++ [x]⟩ : CacheState T).cache
              = st.cache ++ [(x, u)] from rfl,
            lookupTok_append_none _ _ _ hmm]
        simp [lookupTok]
      · exact ih3 x u hx' hu
    · intro x hx
      have hxm : m ≠ x := fun he => hx (by simp [he])
      have hx' : x ∉ ms := fun h => hx (by simp [h])
      rw [hrun, ih4 x hx',
          show (⟨st.cache ++ [(m, t)], st.calls ++ [m]⟩ : CacheState T).cache
            = st.cache ++ [(m, t)] from rfl]
      cases h0 : lookupTok st.cache x with
      | none => rw [lookupTok_append_none _ _ _ h0]; simp [lookupTok, hxm]
      | some u => exact lookupTok_append_some _ _ _ _ h0

/-! ## C2 — cache singleton property -/

/-- C2 confirmed: after successful first `GetOrCreate` calls across `K`
distinct non-empty model names, `Size` equals `K`, the factory was
invoked exactly once per name (so at most one tokenizer is constructed
per name), and a later call for any of those names returns exactly the
stored instance the factory produced, with the cache state — including
the factory-invocation log — unchanged. -/
theorem c2_cache_singleton {T : Type} (factory : String → Except String T)
    (names : List String) (hnd : names.Nodup)
    (hne : ∀ m ∈ names, m ≠ "")
    (hok : ∀ m ∈ names, ∃ t, factory m = .ok t) :
    Size (runCalls factory (emptyCache T) names) = names.length ∧
    (runCalls factory (emptyCache T) names).calls = names ∧
    (∀ m t, m ∈ names → factory m = .ok t →
      GetOrCreate factory (runCalls factory (emptyCache T) names) m =
        (.ok t, runCalls factory (emptyCache T) names)) := by
  obtain ⟨h1, h2, h3, _⟩ := runCalls_fresh factory names (emptyCache T) hnd hne
    (fun m _ => rfl) hok
  refine ⟨?_, ?_, ?_⟩
  · rw [Size, h2]; simp [emptyCache]
  · rw [h1]; rfl
  · intro m t hm ht
    exact getOrCreate_hit factory _ m t (hne m hm) (h3 m t hm ht)

/-- C2 witness: two distinct names through the length factory give a
cache of size two, one factory invocation per name, and a repeated call
for the first name returns the stored instance with no state change. -/
theorem c2_cache_singleton_witness :
    Size (runCalls natFactory (emptyCache Nat) ["a", "b"]) = 2 ∧
    (runCalls natFactory (emptyCache Nat) ["a", "b"]).calls = ["a", "b"] ∧
    GetOrCreate natFactory (runCalls natFactory (emptyCache Nat) ["a", "b"]) "a" =
      (.ok 1, runCalls natFactory (emptyCache Nat) ["a", "b"]) := by
  obtain ⟨h1, h2, h3⟩ := c2_cache_singleton natFactory ["a", "b"] (by decide)
    (by decide) (fun m hm => ⟨m.length, by fin_cases hm <;> rfl⟩)
  exact ⟨h1, h2, h3 "a" 1 (by decide) rfl⟩

/-! ## C7 — construction failure is not cached -/

/-- C7 confirmed: when the factory fails for a fresh model name, the
wrapped error is surfaced, the cache is unchanged (`Has` stays false,
`Size` is unchanged), the failure itself consumed one factory
invocation, and a subsequent `GetOrCreate` for the same name invokes the
factory again — so a later attempt with a now-working factory succeeds
and stores the instance, with no cache-invalidation call in between. -/
theorem c7_construction_failure {T : Type} (factory : String → Except String T)
    (st : CacheState T) (m : String) (e : String) (hm : m ≠ "")
    (hmiss : lookupTok st.cache m = none) (hf : factory m = .error e) :
    GetOrCreate factory st m =
      (.error ("failed to create tokenizer for model " ++ m ++ ": " ++ e),
       { st with calls := st.calls ++ [m] }) ∧
    Has { st with calls := st.calls ++ [m] } m = false ∧
    Size { st with calls := st.calls ++ [m] } = Size st ∧
    (∀ (factory2 : String → Except String T) (t : T), factory2 m = .ok t →
      GetOrCreate factory2 { st with calls := st.calls ++ [m] } m =
        (.ok t, { cache := st.cache ++ [(m, t)], calls := st.calls ++ [m] ++ [m] })) := by
  refine ⟨getOrCreate_miss_err factory st m e hm hmiss hf, ?_, rfl, ?_⟩
  · simp [Has, hmiss]
  · intro factory2 t ht
    exact getOrCreate_miss_ok factory2 _ m t hm hmiss ht

/-- C7 witness: the length factory rejects the name `bad`; the failure
is surfaced, nothing is cached, and a retry with a repaired factory
succeeds and stores the instance. -/
theorem c7_construction_failure_witness :
    GetOrCreate natFactory (emptyCache Nat) "bad" =
      (.error ("failed to create tokenizer for model " ++ "bad" ++ ": " ++ "boom"),
       { emptyCache Nat with calls := (emptyCache Nat).calls ++ ["bad"] }) ∧
    Has { emptyCache Nat with calls := (emptyCache Nat).calls ++ ["bad"] } "bad" = false ∧
    Size { emptyCache Nat with calls := (emptyCache Nat).calls ++ ["bad"] } =
      Size (emptyCache Nat) ∧
    (∀ (factory2 : String → Except String Nat) (t : Nat), factory2 "bad" = .ok t →
      GetOrCreate factory2 { emptyCache Nat with calls := (emptyCache Nat).calls ++ ["bad"] } "bad" =
        (.ok t, { cache := (emptyCache Nat).cache ++ [("bad", t)],
                  calls := (emptyCache Nat).calls ++ ["bad"] ++ ["bad"] })) :=
  c7_construction_failure natFactory (emptyCache Nat) "bad" "boom" (by decide) rfl rfl

/-! ## Streaming lemmas shared by C1, C4, C5, C6 -/

/-- When neither the byte nor the token ceiling is configured and the
line ceiling is not crossed, one `streamStep` accepts the line: counters
are advanced, the line is buffered with a newline, and the callback
receives it. -/
lemma streamStep_accept (tok : Option TokenCounter) (mb ml mt : Int)
    (st : PipeState) (line : List Char) (hmb : mb ≤ 0) (hmt : mt ≤ 0)
    (hline : ¬(ml > 0 ∧ (if ml > 0 then st.lineCount + 1 else st.lineCount) > ml)) :
    streamStep tok mb ml mt st line =
      ({ st with
         lineCount := if ml > 0 then st.lineCount + 1 else st.lineCount,
         byteCount := st.byteCount + (utf8Len line + 1),
         buf := st.buf ++ line ++ ['\n'],
         cbLines := st.cbLines ++ [line] }, none) := by
  have hmb2 : ¬(mb > 0 ∧ st.byteCount + (utf8Len line + 1) > mb) := by
    rintro ⟨hh, -⟩; omega
  have hmt2 : ¬ mt > 0 := by omega
  cases tok with
  | none => simp [streamStep, hline, hmb2]
  | some t => simp [streamStep, hline, hmb2, hmt2]

/-- With no line ceiling configured, a `streamStep` never reports the
line-limit error. -/
lemma streamStep_no_lineErr (tok : Option TokenCounter) (mb ml mt : Int)
    (st : PipeState) (line : List Char) (hml : ml ≤ 0) :
    (streamStep tok mb ml mt st line).2 ≠ some .lineLimitExceeded := by
  simp only [streamStep]
  split_ifs <;> first | omega | simp_all

/-- With no byte ceiling configured, a `streamStep` never reports the
byte-limit error. -/
lemma streamStep_no_byteErr (tok : Option TokenCounter) (mb ml mt : Int)
    (st : PipeState) (line : List Char) (hmb : mb ≤ 0) :
    (streamStep tok mb ml mt st line).2 ≠ some .outputLimitExceeded := by
  simp only [streamStep]
  split_ifs <;> simp_all <;> omega

/-- With no token ceiling configured, or no tokenizer supplied, a
`streamStep` never reports the token-limit error. -/
lemma streamStep_no_tokenErr (tok : Option TokenCounter) (mb ml mt : Int)
    (st : PipeState) (line : List Char) (h : mt ≤ 0 ∨ tok = none) :
    (streamStep tok mb ml mt st line).2 ≠ some .tokenLimitExceeded := by
  rcases h with hmt | rfl
  · cases tok with
    | none =>
      simp only [streamStep]
      split_ifs <;> simp_all
    | some t =>
      simp only [streamStep, if_neg (show ¬ mt > 0 by omega)]
      split_ifs <;> simp_all
  · simp only [streamStep]
    split_ifs <;> simp_all

/-- Any limit error returned by a whole `streamPipe` run was produced by
some `streamStep`, so per-step guard facts transfer to the run. -/
lemma streamPipe_err_mem (tok : Option TokenCounter) (mb ml mt : Int) :
    ∀ (lines : List (List Char)) (st : PipeState) (e : LimitErr),
      (streamPipe tok mb ml mt st lines).2 = some e →
      ∃ st' line, (streamStep tok mb ml mt st' line).2 = some e := by
  intro lines
  induction lines with
  | nil => intro st e h; simp [streamPipe] at h
  | cons line rest ih =>
    intro st e h
    simp only [streamPipe] at h
    cases hs : streamStep tok mb ml mt st line with
    | mk st1 oe =>
      rw [hs] at h
      cases oe with
      | none => exact ih st1 e h
      | some e0 =>
        simp only at h
        cases h
        exact ⟨st, line, by rw [hs]⟩

/-- C5 confirmed: with `maxLines = 0` a streaming run never returns the
line-limit error, with `maxBytes = 0` never the byte-limit error, and
with `maxTokens = 0` or no tokenizer never the token-limit error,
whatever the stream contains. -/
theorem c5_zero_means_unlimited (tok : Option TokenCounter) (mb ml mt : Int)
    (raw : List Char) :
    (ml = 0 →
      (executeStreamingSingle tok mb ml mt raw).limitErr ≠ some .lineLimitExceeded) ∧
    (mb = 0 →
      (executeStreamingSingle tok mb ml mt raw).limitErr ≠ some .outputLimitExceeded) ∧
    (mt = 0 ∨ tok = none →
      (executeStreamingSingle tok mb ml mt raw).limitErr ≠ some .tokenLimitExceeded) := by
  have hproj : (executeStreamingSingle tok mb ml mt raw).limitErr
      = (streamPipe tok mb ml mt initPipeState (scanLines raw)).2 := rfl
  refine ⟨?_, ?_, ?_⟩ <;> intro h0 hbad <;> rw [hproj] at hbad
  · obtain ⟨st', line, hs⟩ := streamPipe_err_mem tok mb ml mt (scanLines raw)
      initPipeState _ hbad
    exact streamStep_no_lineErr tok mb ml mt st' line (by omega) hs
  · obtain ⟨st', line, hs⟩ := streamPipe_err_mem tok mb ml mt (scanLines raw)
      initPipeState _ hbad
    exact streamStep_no_byteErr tok mb ml mt st' line (by omega) hs
  · obtain ⟨st', line, hs⟩ := streamPipe_err_mem tok mb ml mt (scanLines raw)
      initPipeState _ hbad
    have h0' : mt ≤ 0 ∨ tok = none := by
      rcases h0 with h0 | h0
      · exact Or.inl (by omega)
      · exact Or.inr h0
    exact streamStep_no_tokenErr tok mb ml mt st' line h0' hs

/-- C5 witness: the unlimited configuration on a concrete stream returns
none of the three limit errors. -/
theorem c5_zero_means_unlimited_witness :
    (executeStreamingSingle none 0 0 0 ['a']).limitErr ≠ some .lineLimitExceeded ∧
    (executeStreamingSingle none 0 0 0 ['a']).limitErr ≠ some .outputLimitExceeded ∧
    (executeStreamingSingle none 0 0 0 ['a']).limitErr ≠ some .tokenLimitExceeded :=
  ⟨(c5_zero_means_unlimited none 0 0 0 ['a']).1 rfl,
   (c5_zero_means_unlimited none 0 0 0 ['a']).2.1 rfl,
   (c5_zero_means_unlimited none 0 0 0 ['a']).2.2 (Or.inl rfl)⟩

/-- C6 confirmed: on a line where `CountTokens` fails, the step behaves
exactly as if no tokenizer were configured: the shared token counter is
left unchanged, no token-limit error is produced on account of that
line, and — whenever ingestion proceeds (no other ceiling fired) — the
line is still buffered and still delivered to the callback. -/
theorem c6_token_best_effort (t : TokenCounter) (mb ml mt : Int)
    (st : PipeState) (line : List Char) (herr : t line = none) :
    streamStep (some t) mb ml mt st line = streamStep none mb ml mt st line ∧
    (streamStep (some t) mb ml mt st line).1.tokenCount = st.tokenCount ∧
    (streamStep (some t) mb ml mt st line).2 ≠ some .tokenLimitExceeded ∧
    ((streamStep (some t) mb ml mt st line).2 = none →
      (streamStep (some t) mb ml mt st line).1.buf = st.buf ++ line ++ ['\n'] ∧
      (streamStep (some t) mb ml mt st line).1.cbLines = st.cbLines ++ [line]) := by
  have hsame : streamStep (some t) mb ml mt st line
      = streamStep none mb ml mt st line := by
    by_cases hmt : mt > 0 <;> simp [streamStep, herr, hmt]
  refine ⟨hsame, ?_, ?_, ?_⟩ <;> rw [hsame]
  · simp only [streamStep]
    split_ifs <;> simp_all
  · exact streamStep_no_tokenErr none mb ml mt st line (Or.inr rfl)
  · intro hnone
    simp only [streamStep] at hnone ⊢
    split_ifs at hnone ⊢ <;> simp_all

/-- C6 witness: a counter that always fails, with a token ceiling of one
configured, still lets a line through untouched. -/
theorem c6_token_best_effort_witness :
    streamStep (some (fun _ => none)) 0 0 1 initPipeState ['a']
      = streamStep none 0 0 1 initPipeState ['a'] ∧
    (streamStep (some (fun _ => none)) 0 0 1 initPipeState ['a']).1.tokenCount
      = initPipeState.tokenCount ∧
    (streamStep (some (fun _ => none)) 0 0 1 initPipeState ['a']).2
      ≠ some .tokenLimitExceeded ∧
    ((streamStep (some (fun _ => none)) 0 0 1 initPipeState ['a']).2 = none →
      (streamStep (some (fun _ => none)) 0 0 1 initPipeState ['a']).1.buf
        = initPipeState.buf ++ ['a'] ++ ['\n'] ∧
      (streamStep (some (fun _ => none)) 0 0 1 initPipeState ['a']).1.cbLines
        = initPipeState.cbLines ++ [['a']]) :=
  c6_token_best_effort (fun _ => none) 0 0 1 initPipeState ['a'] rfl

/-- With only the line ceiling `L` configured and `c` lines counted so
far, a run over more than `L - c` further lines stops with the
line-limit error after accepting exactly the next `L - c` lines: those
lines, and only those, reach the buffer and the callback. -/
lemma streamPipe_hits_line_limit (tok : Option TokenCounter) (mb mt : Int)
    (hmb : mb ≤ 0) (hmt : mt ≤ 0) (L : Nat) (hL : 0 < L) :
    ∀ (lines : List (List Char)) (c : Nat) (st : PipeState),
      st.lineCount = (c : Int) → c ≤ L → L + 1 ≤ c + lines.length →
      (streamPipe tok mb (L : Int) mt st lines).2 = some .lineLimitExceeded ∧
      (streamPipe tok mb (L : Int) mt st lines).1.cbLines
        = st.cbLines ++ lines.take (L - c) ∧
      (streamPipe tok mb (L : Int) mt st lines).1.buf
        = st.buf ++ ((lines.take (L - c)).map (fun l => l ++ ['\n'])).flatten := by
  intro lines
  induction lines with
  | nil => intro c st h1 h2 h3; simp at h3; omega
  | cons line rest ih =>
    intro c st h1 h2 h3
    have hLpos : (L : Int) > 0 := by exact_mod_cast hL
    by_cases hcL : c = L
    · have hstep : streamStep tok mb (L : Int) mt st line =
          ({ st with lineCount := st.lineCount + 1 }, some .lineLimitExceeded) := by
        simp only [streamStep, if_pos hLpos]
        rw [if_pos ⟨hLpos, by rw [h1, hcL]; omega⟩]
      have hpipe : streamPipe tok mb (L : Int) mt st (line :: rest) =
          ({ st with lineCount := st.lineCount + 1 }, some .lineLimitExceeded) := by
        simp only [streamPipe]
        rw [hstep]
      rw [hpipe]
      subst hcL
      simp
    · have hclt : c < L := lt_of_le_of_ne h2 hcL
      have hline : ¬((L : Int) > 0 ∧
          (if (L : Int) > 0 then st.lineCount + 1 else st.lineCount) > (L : Int)) := by
        rw [if_pos hLpos, h1]
        rintro ⟨-, hgt⟩
        have : (c : Int) + 1 ≤ (L : Int) := by exact_mod_cast hclt
        omega
      have hstep := streamStep_accept tok mb (L : Int) mt st line hmb hmt hline
      rw [if_pos hLpos] at hstep
      have hpipe : streamPipe tok mb (L : Int) mt st (line :: rest) =
          streamPipe tok mb (L : Int) mt
            ({ st with
               lineCount := st.lineCount + 1,
               byteCount := st.byteCount + (utf8Len line + 1),
               buf := st.buf ++ line ++ ['\n'],
               cbLines := st.cbLines ++ [line] }) rest := by
        simp only [streamPipe]
        rw [hstep]
      obtain ⟨ih1, ih2, ih3⟩ := ih (c + 1)
        ({ st with
           lineCount := st.lineCount + 1,
           byteCount := st.byteCount + (utf8Len line + 1),
           buf := st.buf ++ line ++ ['\n'],
           cbLines := st.cbLines ++ [line] })
        (by simp [h1]) (by omega)
        (by simp at h3 ⊢; omega)
      have htake : L - c = (L - (c + 1)) + 1 := by omega
      rw [hpipe]
      refine ⟨ih1, ?_, ?_⟩
      · rw [ih2, htake, List.take_succ_cons]
        simp
      · rw [ih3, htake, List.take_succ_cons]
        simp

/-- C1 confirmed: streaming a single stream of at least `L + 1` lines
against `maxLines = L > 0` (no other ceiling) returns the line-limit
error, invokes the per-line callback exactly `L` times — with exactly
the first `L` lines — and buffers exactly those `L` lines into the
combined output; the line that crossed the ceiling is neither buffered
nor delivered. -/
theorem c1_line_limit_exact (tok : Option TokenCounter) (L : Nat) (hL : 0 < L)
    (raw : List Char) (hlen : L + 1 ≤ (scanLines raw).length) :
    (executeStreamingSingle tok 0 (L : Int) 0 raw).limitErr
      = some .lineLimitExceeded ∧
    (executeStreamingSingle tok 0 (L : Int) 0 raw).cbLines
      = (scanLines raw).take L ∧
    (executeStreamingSingle tok 0 (L : Int) 0 raw).cbLines.length = L ∧
    (executeStreamingSingle tok 0 (L : Int) 0 raw).output
      = (((scanLines raw).take L).map (fun l => l ++ ['\n'])).flatten := by
  obtain ⟨h1, h2, h3⟩ := streamPipe_hits_line_limit tok 0 0 (le_refl 0) (le_refl 0)
    L hL (scanLines raw) 0 initPipeState (by simp [initPipeState]) (Nat.zero_le L)
    (by simpa using hlen)
  have hcb : (executeStreamingSingle tok 0 (L : Int) 0 raw).cbLines
      = (streamPipe tok 0 (L : Int) 0 initPipeState (scanLines raw)).1.cbLines := rfl
  have hout : (executeStreamingSingle tok 0 (L : Int) 0 raw).output
      = combineOutput
          (streamPipe tok 0 (L : Int) 0 initPipeState (scanLines raw)).1.buf [] := rfl
  refine ⟨h1, ?_, ?_, ?_⟩
  · rw [hcb, h2]; simp [initPipeState]
  · rw [hcb, h2]
    simp [initPipeState, List.length_take]
    omega
  · rw [hout, h3]
    simp [initPipeState, combineOutput]

/-- C1 witness: three scanned lines against a ceiling of one line. -/
theorem c1_line_limit_exact_witness :
    (executeStreamingSingle none 0 ((1 : Nat) : Int) 0 ['a', '\n', 'b', '\n', 'c']).limitErr
      = some .lineLimitExceeded ∧
    (executeStreamingSingle none 0 ((1 : Nat) : Int) 0 ['a', '\n', 'b', '\n', 'c']).cbLines
      = (scanLines ['a', '\n', 'b', '\n', 'c']).take 1 ∧
    (executeStreamingSingle none 0 ((1 : Nat) : Int) 0 ['a', '\n', 'b', '\n', 'c']).cbLines.length
      = 1 ∧
    (executeStreamingSingle none 0 ((1 : Nat) : Int) 0 ['a', '\n', 'b', '\n', 'c']).output
      = (((scanLines ['a', '\n', 'b', '\n', 'c']).take 1).map (fun l => l ++ ['\n'])).flatten :=
  c1_line_limit_exact none 1 (by decide) ['a', '\n', 'b', '\n', 'c'] (by decide)

/-! ## Scanner lemmas for C4 -/

/-- `takeWhile` stops at the first failing element, whatever follows. -/
lemma takeWhile_append_stop {α : Type} (p : α → Bool) (c : α) (hc : p c = false) :
    ∀ l1 l2 : List α, (l1 ++ c :: l2).takeWhile p = l1.takeWhile p := by
  intro l1
  induction l1 with
  | nil => intro l2; simp [List.takeWhile_cons, hc]
  | cons a l ih =>
    intro l2
    by_cases ha : p a = true
    · simp [List.takeWhile_cons, ha, ih]
    · simp [List.takeWhile_cons, ha]

/-- Everything after the last newline is unaffected by what precedes
that newline. -/
lemma lastSegment_append_newline (xs rest : List Char) :
    lastSegment (xs ++ '\n' :: rest) = lastSegment rest := by
  unfold lastSegment
  have h1 : (xs ++ '\n' :: rest).reverse = rest.reverse ++ '\n' :: xs.reverse := by
    simp
  rw [h1, takeWhile_append_stop _ '\n' (by simp) rest.reverse xs.reverse]

/-- A scan of a non-empty stream (or with a pending partial line) yields
at least one line. -/
lemma scanLinesAux_ne_nil : ∀ (cs acc : List Char), cs ≠ [] ∨ acc ≠ [] →
    scanLinesAux cs acc ≠ [] := by
  intro cs
  induction cs with
  | nil =>
    intro acc h
    rcases h with h | h
    · exact absurd rfl h
    · simp [scanLinesAux, List.isEmpty_iff, h]
  | cons c rest ih =>
    intro acc h
    by_cases hc : c = '\n'
    · simp [scanLinesAux, hc]
    · simp only [scanLinesAux, hc, if_false]
      exact ih (c :: acc) (Or.inr (by simp))

/-- Dropping the head before a non-empty tail does not change the last
element. -/
lemma getLast?_cons_of_ne_nil {α : Type} (a : α) (l : List α) (h : l ≠ []) :
    (a :: l).getLast? = l.getLast? := by
  cases l with
  | nil => exact absurd rfl h
  | cons b bs => exact List.getLast?_cons_cons

/-- The last token the scanner yields on a stream that does not end in a
newline is the truncated final segment after the last newline, with a
terminal carriage return stripped. -/
lemma scanLinesAux_getLast : ∀ (cs acc : List Char), '\n' ∉ acc →
    (cs ≠ [] → cs.getLast? ≠ some '\n') → (cs ≠ [] ∨ acc ≠ []) →
    (scanLinesAux cs acc).getLast?
      = some (dropCR (lastSegment (acc.reverse ++ cs))) := by
  intro cs
  induction cs with
  | nil =>
    intro acc hacc _ hne
    rcases hne with h | h
    · exact absurd rfl h
    · have h1 : scanLinesAux [] acc = [dropCR acc.reverse] := by
        simp [scanLinesAux, List.isEmpty_iff, h]
      have hall : acc.takeWhile (fun c => c ≠ '\n') = acc :=
        List.takeWhile_eq_self_iff.mpr (by
          intro x hx
          simp only [decide_eq_true_eq]
          exact fun he => hacc (he ▸ hx))
      have h2 : lastSegment (acc.reverse ++ []) = acc.reverse := by
        simp only [List.append_nil, lastSegment, List.reverse_reverse]
        rw [hall]
      rw [h1, h2]
      simp
  | cons c rest ih =>
    intro acc hacc hlast hne
    by_cases hc : c = '\n'
    · subst hc
      have hrest : rest ≠ [] := by
        intro h
        subst h
        exact hlast (by simp) (by simp)
      have h1 : scanLinesAux ('\n' :: rest) acc
          = dropCR acc.reverse :: scanLinesAux rest [] := by
        simp [scanLinesAux]
      have h2 := ih [] (by simp)
        (fun _ => by
          rw [← getLast?_cons_of_ne_nil '\n' rest hrest]
          exact hlast (by simp))
        (Or.inl hrest)
      rw [h1, getLast?_cons_of_ne_nil _ _ (scanLinesAux_ne_nil rest [] (Or.inl hrest)),
          h2]
      simp only [List.reverse_nil, List.nil_append]
      rw [lastSegment_append_newline]
    · have h1 : scanLinesAux (c :: rest) acc = scanLinesAux rest (c :: acc) := by
        simp [scanLinesAux, hc]
      have hacc2 : '\n' ∉ c :: acc := by
        intro h
        rcases List.mem_cons.mp h with h | h
        · exact hc h.symm
        · exact hacc h
      have hlast2 : rest ≠ [] → rest.getLast? ≠ some '\n' := by
        intro hr
        rw [← getLast?_cons_of_ne_nil c rest hr]
        exact hlast (by simp)
      have h2 := ih (c :: acc) hacc2 hlast2 (Or.inr (by simp))
      have h3 : (c :: acc).reverse ++ rest = acc.reverse ++ c :: rest := by simp
      rw [h1, h2, h3]

/-- A run with every ceiling unconfigured accepts every scanned line:
no error, every line delivered to the callback, every line buffered
with a trailing newline. -/
lemma streamPipe_no_limits : ∀ (lines : List (List Char)) (st : PipeState),
    (streamPipe none 0 0 0 st lines).2 = none ∧
    (streamPipe none 0 0 0 st lines).1.cbLines = st.cbLines ++ lines ∧
    (streamPipe none 0 0 0 st lines).1.buf
      = st.buf ++ (lines.map (fun l => l ++ ['\n'])).flatten := by
  intro lines
  induction lines with
  | nil => intro st; simp [streamPipe]
  | cons line rest ih =>
    intro st
    have hstep := streamStep_accept none 0 0 0 st line (le_refl 0) (le_refl 0)
      (by simp)
    rw [if_neg (show ¬ (0 : Int) > 0 by omega)] at hstep
    have hpipe : streamPipe none 0 0 0 st (line :: rest)
        = streamPipe none 0 0 0
            ({ st with lineCount := st.lineCount,
                       byteCount := st.byteCount + (utf8Len line + 1),
                       buf := st.buf ++ line ++ ['\n'],
                       cbLines := st.cbLines ++ [line] }) rest := by
      simp only [streamPipe]
      rw [hstep]
    obtain ⟨ih1, ih2, ih3⟩ := ih
      ({ st with lineCount := st.lineCount,
                 byteCount := st.byteCount + (utf8Len line + 1),
                 buf := st.buf ++ line ++ ['\n'],
                 cbLines := st.cbLines ++ [line] })
    rw [hpipe]
    exact ⟨ih1, by rw [ih2]; simp, by rw [ih3]; simp⟩

/-! ## C4 — truncated final line -/

/-- C4 counterexample: on the single-stream input `a` with no trailing
newline, the truncated final line IS delivered to the per-line callback
(one line event, carrying `a`), contradicting the claim that it is not
emitted; its bytes do appear in the combined output, with a newline
appended. -/
theorem c4_counterexample :
    (executeStreamingSingle none 0 0 0 ['a']).cbLines ≠ [] ∧
    (executeStreamingSingle none 0 0 0 ['a']).cbLines = [['a']] ∧
    (executeStreamingSingle none 0 0 0 ['a']).output = ['a', '\n'] := by
  exact ⟨by decide, by decide, by decide⟩

/-- C4 amended: in streaming mode a truncated final line with no
trailing newline IS delivered to the per-line callback as an ordinary
line event — it is the last line event of its stream — and its bytes
also appear in the final combined output of the ExecutionResult, with a
newline appended there. -/
theorem c4_amended (raw : List Char) (h1 : raw ≠ [])
    (h2 : raw.getLast? ≠ some '\n') :
    (executeStreamingSingle none 0 0 0 raw).limitErr = none ∧
    (executeStreamingSingle none 0 0 0 raw).cbLines = scanLines raw ∧
    (executeStreamingSingle none 0 0 0 raw).cbLines.getLast?
      = some (dropCR (lastSegment raw)) ∧
    (executeStreamingSingle none 0 0 0 raw).output
      = ((scanLines raw).map (fun l => l ++ ['\n'])).flatten := by
  obtain ⟨g1, g2, g3⟩ := streamPipe_no_limits (scanLines raw) initPipeState
  have hlast : (scanLines raw).getLast? = some (dropCR (lastSegment raw)) := by
    have h := scanLinesAux_getLast raw [] (by simp) (fun _ => h2) (Or.inl h1)
    simpa [scanLines] using h
  have herr : (executeStreamingSingle none 0 0 0 raw).limitErr
      = (streamPipe none 0 0 0 initPipeState (scanLines raw)).2 := rfl
  have hcb : (executeStreamingSingle none 0 0 0 raw).cbLines
      = (streamPipe none 0 0 0 initPipeState (scanLines raw)).1.cbLines := rfl
  have hout : (executeStreamingSingle none 0 0 0 raw).output
      = combineOutput
          (streamPipe none 0 0 0 initPipeState (scanLines raw)).1.buf [] := rfl
  refine ⟨by rw [herr, g1], ?_, ?_, ?_⟩
  · rw [hcb, g2]; simp [initPipeState]
  · rw [hcb, g2]; simp [initPipeState, hlast]
  · rw [hout, g3]; simp [initPipeState, combineOutput]

/-- C4 witness (for the amended claim): the one-character stream with no
trailing newline. -/
theorem c4_amended_witness :
    (executeStreamingSingle none 0 0 0 ['a']).limitErr = none ∧
    (executeStreamingSingle none 0 0 0 ['a']).cbLines = scanLines ['a'] ∧
    (executeStreamingSingle none 0 0 0 ['a']).cbLines.getLast?
      = some (dropCR (lastSegment ['a'])) ∧
    (executeStreamingSingle none 0 0 0 ['a']).output
      = ((scanLines ['a']).map (fun l => l ++ ['\n'])).flatten :=
  c4_amended ['a'] (by decide) (by decide)

end Ctx
